import Mathlib

/-!
Verification of the BlockStreamer described by this repository.

The repository consists of explanatory notebooks; the block-streaming
interface is described in prose (frame/hop/block geometry, the worked
example with `frame_length = 100`, `hop_length = 25`, `block_length = 3`,
and the `center = False` alignment contract), but no implementation ships
under `src/`.  The definitions below therefore model the BlockStreamer
from the specification, faithful to its algorithm steps 1-5, its data
model, and its error taxonomy.  Frame and block geometry follows the
notebook's worked example exactly.
-/

namespace Streaming

/-- Modelled from the spec: number of samples needed per block,
`block_samples = frame_length + (block_length - 1) * hop_length`
(spec section 4.1, algorithm step 1).  The implementation itself is
missing from the repository; only the notebooks describe it. -/
def blockSamples (fl hl bl : Nat) : Nat := fl + (bl - 1) * hl

/-- Modelled from the spec: advance per block,
`block_advance = block_length * hop_length` (spec section 4.1, step 2). -/
def blockAdvance (hl bl : Nat) : Nat := bl * hl

/-- Modelled from the spec: block `j` starts at sample
`j * block_length * hop_length` (spec section 3, data model). -/
def blockStart (hl bl j : Nat) : Nat := j * blockAdvance hl bl

/-- Modelled from the spec: the number of complete frames of `fl` samples,
at hop `hl`, that fit in a signal of `n` samples with no centering:
frame `k` spans samples `[k*hl, k*hl + fl)`. -/
def numFrames (fl hl n : Nat) : Nat := if n < fl then 0 else (n - fl) / hl + 1

/-- Modelled from the spec: frame `k` of a signal, starting at sample
`k * hop_length` (no centering), spanning `frame_length` samples. -/
def frame (fl hl : Nat) (y : List Int) (k : Nat) : List Int :=
  (y.drop (k * hl)).take fl

/-- Modelled from the spec: the frame sequence extracted from a whole
signal with `center = False`: all complete frames, in order. -/
def frames (fl hl : Nat) (y : List Int) : List (List Int) :=
  (List.range (numFrames fl hl y.length)).map (frame fl hl y)

/-- Modelled from the spec: the number of blocks emitted for a signal of
`n` samples; a block is emitted exactly while at least `frame_length` new
samples remain at the cursor (spec section 4.1, step 5). -/
def numBlocks (fl hl bl n : Nat) : Nat :=
  if n < fl then 0 else (n - fl) / blockAdvance hl bl + 1

/-- Modelled from the spec: block `j` of a signal, covering
`block_samples` samples starting at sample `j * block_length * hop_length`
(truncated at the end of the signal). -/
def block (fl hl bl : Nat) (y : List Int) (j : Nat) : List Int :=
  (y.drop (blockStart hl bl j)).take (blockSamples fl hl bl)

/-- Modelled from the spec: the whole block sequence of a signal, as a
pure function of the samples and the parameters. -/
def blocks (fl hl bl : Nat) (y : List Int) : List (List Int) :=
  (List.range (numBlocks fl hl bl y.length)).map (block fl hl bl y)

/-- Modelled from the spec: error taxonomy of section 7
(`ConfigurationError`, `SourceReadError`). -/
inductive StreamError where
  | configurationError
  | sourceReadError
deriving DecidableEq

/-- Modelled from the spec: recognized configuration options of the
BlockStreamer (section 6); `center` records a centering request, which
must be rejected when combined with `hop_length > frame_length`. -/
structure StreamConfig where
  frame_length : Int
  hop_length : Int
  block_length : Int
  center : Bool
deriving DecidableEq

/-- Modelled from the spec: a backing audio source supporting sequential
reads of raw sample chunks; `failAt = some m` models a source that
reports a read failure as soon as a read touches sample index `m`
(a read failure mid-stream, spec section 7). -/
structure AudioSource where
  samples : List Int
  failAt : Option Nat
deriving DecidableEq

/-- Modelled from the spec: the streamer's internal state - a read cursor
into the source and the reusable overlap tail of the previous window
(spec section 4.1, step 3). -/
structure StreamState where
  cursor : Nat
  buffer : List Int
deriving DecidableEq

/-- Modelled from the spec: the observable outcome of an iteration run -
the blocks emitted in order, the terminal error if any, and the number of
read operations performed on the backing source. -/
structure StreamResult where
  emitted : List (List Int)
  error : Option StreamError
  reads : Nat
deriving DecidableEq

/-- Modelled from the spec: a parameter triple is valid when
`frame_length > 0`, `hop_length > 0`, `block_length >= 1`, and a
centering request is only allowed with `hop_length <= frame_length`. -/
def ConfigValid (c : StreamConfig) : Prop :=
  0 < c.frame_length ∧ 0 < c.hop_length ∧ 1 ≤ c.block_length ∧
    (c.center = true → c.hop_length ≤ c.frame_length)

instance decConfigValid (c : StreamConfig) : Decidable (ConfigValid c) :=
  inferInstanceAs (Decidable (0 < c.frame_length ∧ 0 < c.hop_length ∧
    1 ≤ c.block_length ∧ (c.center = true → c.hop_length ≤ c.frame_length)))

/-- Modelled from the spec: eager configuration validation, performed
before any read occurs (spec section 7: `ConfigurationError` is detected
eagerly). -/
def validateConfig (c : StreamConfig) : Except StreamError Unit :=
  if c.frame_length ≤ 0 ∨ c.hop_length ≤ 0 ∨ c.block_length < 1 ∨
      (c.center = true ∧ c.frame_length < c.hop_length) then
    Except.error StreamError.configurationError
  else Except.ok ()

/-- Modelled from the spec: a sequential read of `cnt` samples starting
at position `pos`; it fails with `SourceReadError` when the read touches
the corrupted index, and is truncated at the end of the source. -/
def sourceRead (s : AudioSource) (pos cnt : Nat) : Except StreamError (List Int) :=
  match s.failAt with
  | some m =>
    if m < pos + cnt then Except.error StreamError.sourceReadError
    else Except.ok ((s.samples.drop pos).take cnt)
  | none => Except.ok ((s.samples.drop pos).take cnt)

/-- Modelled from the spec: one iteration of the streaming loop
(spec section 4.1, steps 3-5): terminate when fewer than `frame_length`
new samples remain at the cursor; otherwise read enough new samples to
fill a window of `block_samples` samples, reusing the buffered tail,
emit the window, advance the cursor by `block_advance` and keep the
window's tail past the advance as the next overlap buffer. -/
def stepBlock (fl hl bl : Nat) (s : AudioSource) (st : StreamState) :
    Except StreamError (Option (List Int × StreamState)) :=
  if st.cursor + fl ≤ s.samples.length then
    match sourceRead s (st.cursor + st.buffer.length)
        (blockSamples fl hl bl - st.buffer.length) with
    | Except.error e => Except.error e
    | Except.ok fresh =>
      let window := st.buffer ++ fresh
      Except.ok (some (window,
        ⟨st.cursor + blockAdvance hl bl, window.drop (blockAdvance hl bl)⟩))
  else Except.ok none

/-- Modelled from the spec: the fuel-indexed iteration of the streaming
loop; a source read failure is surfaced immediately and terminates the
sequence (spec section 7). -/
def runStream (fl hl bl : Nat) (s : AudioSource) : StreamState → Nat → StreamResult
  | _, 0 => ⟨[], none, 0⟩
  | st, fuel + 1 =>
    match stepBlock fl hl bl s st with
    | Except.error e => ⟨[], some e, 1⟩
    | Except.ok none => ⟨[], none, 0⟩
    | Except.ok (some (blk, st')) =>
      let r := runStream fl hl bl s st' fuel
      ⟨blk :: r.emitted, r.error, r.reads + 1⟩

/-- Modelled from the spec: the BlockStreamer - validate the
configuration eagerly (before any read), then iterate the streaming loop
from cursor 0 with an empty overlap buffer.  The fuel
`s.samples.length + 1` dominates the number of blocks of any finite
source, so the run is exhaustive. -/
def stream (c : StreamConfig) (s : AudioSource) : StreamResult :=
  match validateConfig c with
  | Except.error e => ⟨[], some e, 0⟩
  | Except.ok _ =>
    runStream c.frame_length.toNat c.hop_length.toNat c.block_length.toNat s
      ⟨0, []⟩ (s.samples.length + 1)

/-- The streamer-state invariant: at logical block index `j` the cursor
sits at `blockStart j` and the buffer is a take of the signal suffix at
the cursor, never longer than `block_samples`. -/
def stateInv (fl hl bl : Nat) (y : List Int) (j : Nat) (st : StreamState) : Prop :=
  st.cursor = blockStart hl bl j ∧
    ∃ t, t ≤ blockSamples fl hl bl ∧ st.buffer = (y.drop st.cursor).take t

lemma validateConfig_ok (c : StreamConfig) (hv : ConfigValid c) :
    validateConfig c = Except.ok () := by
  obtain ⟨h1, h2, h3, h4⟩ := hv
  unfold validateConfig
  rw [if_neg]
  push_neg
  refine ⟨by omega, by omega, by omega, ?_⟩
  intro hc
  have := h4 hc
  omega

lemma sourceRead_ok_of_none (s : AudioSource) (hg : s.failAt = none) (pos cnt : Nat) :
    sourceRead s pos cnt = Except.ok ((s.samples.drop pos).take cnt) := by
  simp only [sourceRead, hg]

lemma sourceRead_ok_of_le (s : AudioSource) (m : Nat) (hm : s.failAt = some m)
    (pos cnt : Nat) (h : pos + cnt ≤ m) :
    sourceRead s pos cnt = Except.ok ((s.samples.drop pos).take cnt) := by
  simp only [sourceRead, hm]
  rw [if_neg (by omega)]

lemma sourceRead_err (s : AudioSource) (m : Nat) (hm : s.failAt = some m)
    (pos cnt : Nat) (h : m < pos + cnt) :
    sourceRead s pos cnt = Except.error StreamError.sourceReadError := by
  simp only [sourceRead, hm]
  rw [if_pos h]

lemma window_eq (y : List Int) (cursor t bs : Nat) (ht : t ≤ bs) :
    (y.drop cursor).take t ++
      (y.drop (cursor + ((y.drop cursor).take t).length)).take
        (bs - ((y.drop cursor).take t).length) =
    (y.drop cursor).take bs := by
  have hdrop : y.drop (cursor + ((y.drop cursor).take t).length) =
      (y.drop cursor).drop ((y.drop cursor).take t).length := by
    rw [List.drop_drop, Nat.add_comm]
  rw [hdrop]
  rcases Nat.le_total t (y.drop cursor).length with h | h
  · have hlen : ((y.drop cursor).take t).length = t := by
      rw [List.length_take]; omega
    rw [hlen, ← List.take_add]
    congr 1
    omega
  · have h1 : (y.drop cursor).take t = y.drop cursor := List.take_of_length_le h
    rw [h1, List.drop_length, List.take_nil, List.append_nil]
    exact (List.take_of_length_le (by omega)).symm

lemma window_drop (y : List Int) (cursor bs adv : Nat) :
    ((y.drop cursor).take bs).drop adv = (y.drop (cursor + adv)).take (bs - adv) := by
  rw [List.drop_take, List.drop_drop, Nat.add_comm]

lemma stepBlock_stop (fl hl bl : Nat) (s : AudioSource) (st : StreamState)
    (h : ¬ st.cursor + fl ≤ s.samples.length) :
    stepBlock fl hl bl s st = Except.ok none := by
  unfold stepBlock
  rw [if_neg h]

lemma blockStart_succ (hl bl j : Nat) :
    blockStart hl bl (j + 1) = blockStart hl bl j + blockAdvance hl bl := by
  unfold blockStart
  exact Nat.succ_mul j (blockAdvance hl bl)

lemma stepBlock_good (fl hl bl : Nat) (s : AudioSource) (j : Nat) (st : StreamState)
    (hinv : stateInv fl hl bl s.samples j st)
    (hcur : blockStart hl bl j + fl ≤ s.samples.length)
    (hread : s.failAt = none ∨
      ∃ m, s.failAt = some m ∧ blockStart hl bl j + blockSamples fl hl bl ≤ m) :
    stepBlock fl hl bl s st = Except.ok (some (block fl hl bl s.samples j,
      ⟨blockStart hl bl (j + 1),
        (s.samples.drop (blockStart hl bl (j + 1))).take
          (blockSamples fl hl bl - blockAdvance hl bl)⟩)) ∧
    stateInv fl hl bl s.samples (j + 1)
      ⟨blockStart hl bl (j + 1),
        (s.samples.drop (blockStart hl bl (j + 1))).take
          (blockSamples fl hl bl - blockAdvance hl bl)⟩ := by
  obtain ⟨hc, t, ht, hb⟩ := hinv
  have hblen : st.buffer.length ≤ blockSamples fl hl bl := by
    rw [hb, List.length_take]
    omega
  have hw : st.buffer ++ (s.samples.drop (st.cursor + st.buffer.length)).take
      (blockSamples fl hl bl - st.buffer.length) = block fl hl bl s.samples j := by
    conv_lhs => rw [hb]
    rw [window_eq s.samples st.cursor t (blockSamples fl hl bl) ht]
    unfold block
    rw [hc]
  have hb' : (block fl hl bl s.samples j).drop (blockAdvance hl bl) =
      (s.samples.drop (blockStart hl bl (j + 1))).take
        (blockSamples fl hl bl - blockAdvance hl bl) := by
    unfold block
    rw [window_drop, ← blockStart_succ]
  have hrd : sourceRead s (st.cursor + st.buffer.length)
      (blockSamples fl hl bl - st.buffer.length) =
      Except.ok ((s.samples.drop (st.cursor + st.buffer.length)).take
        (blockSamples fl hl bl - st.buffer.length)) := by
    rcases hread with hg | ⟨m, hm, hle⟩
    · exact sourceRead_ok_of_none s hg _ _
    · exact sourceRead_ok_of_le s m hm _ _ (by rw [hc]; omega)
  constructor
  · have hcs : blockStart hl bl j + blockAdvance hl bl = blockStart hl bl (j + 1) :=
      (blockStart_succ hl bl j).symm
    rw [hc] at hw
    unfold stepBlock
    rw [if_pos (by rw [hc]; exact hcur), hrd]
    simp only [hc, hcs, hw, hb']
  · exact ⟨rfl, blockSamples fl hl bl - blockAdvance hl bl, by omega, rfl⟩

lemma blockAdvance_pos (hl bl : Nat) (hhl : 1 ≤ hl) (hbl : 1 ≤ bl) :
    1 ≤ blockAdvance hl bl := by
  unfold blockAdvance
  exact Nat.mul_pos (by omega) (by omega)

lemma blockExists_iff (fl hl bl n : Nat) (hfl : 1 ≤ fl) (hhl : 1 ≤ hl) (hbl : 1 ≤ bl)
    (j : Nat) :
    j < numBlocks fl hl bl n ↔ blockStart hl bl j + fl ≤ n := by
  have hadv := blockAdvance_pos hl bl hhl hbl
  unfold numBlocks blockStart
  split
  · constructor
    · omega
    · intro h
      exfalso
      omega
  · rename_i hnfl
    rw [Nat.lt_succ_iff, Nat.le_div_iff_mul_le (by omega)]
    omega

lemma range_map_shift (f : Nat → List Int) (j m : Nat) :
    (List.range (m + 1)).map (fun i => f (j + i)) =
      f j :: (List.range m).map (fun i => f (j + 1 + i)) := by
  rw [List.range_succ_eq_map, List.map_cons, List.map_map]
  refine congrArg₂ List.cons (by simp) ?_
  apply List.map_congr_left
  intro a _
  show f (j + (a + 1)) = f (j + 1 + a)
  congr 1
  omega

lemma runStream_good (fl hl bl : Nat) (hfl : 1 ≤ fl) (hhl : 1 ≤ hl) (hbl : 1 ≤ bl)
    (s : AudioSource) (hg : s.failAt = none) :
    ∀ fuel j st, stateInv fl hl bl s.samples j st →
      numBlocks fl hl bl s.samples.length - j ≤ fuel →
      runStream fl hl bl s st fuel =
        ⟨(List.range (numBlocks fl hl bl s.samples.length - j)).map
            (fun i => block fl hl bl s.samples (j + i)),
          none, numBlocks fl hl bl s.samples.length - j⟩ := by
  intro fuel
  induction fuel with
  | zero =>
    intro j st _ hfuel
    have h0 : numBlocks fl hl bl s.samples.length - j = 0 := by omega
    rw [h0]
    simp [runStream]
  | succ fuel ih =>
    intro j st hinv hfuel
    by_cases hj : blockStart hl bl j + fl ≤ s.samples.length
    · have hlt : j < numBlocks fl hl bl s.samples.length :=
        (blockExists_iff fl hl bl s.samples.length hfl hhl hbl j).mpr hj
      obtain ⟨hstep, hinv'⟩ := stepBlock_good fl hl bl s j st hinv hj (Or.inl hg)
      simp only [runStream]
      rw [hstep]
      simp only []
      rw [ih (j + 1) _ hinv' (by omega)]
      simp only [StreamResult.mk.injEq]
      refine ⟨?_, by simp, by omega⟩
      have hnb : numBlocks fl hl bl s.samples.length - j =
          (numBlocks fl hl bl s.samples.length - (j + 1)) + 1 := by omega
      rw [hnb, range_map_shift]
    · have hge : numBlocks fl hl bl s.samples.length ≤ j := by
        by_contra hcon
        exact hj ((blockExists_iff fl hl bl s.samples.length hfl hhl hbl j).mp (by omega))
      have h0 : numBlocks fl hl bl s.samples.length - j = 0 := by omega
      simp only [runStream]
      rw [stepBlock_stop fl hl bl s st (by rw [hinv.1]; exact hj)]
      rw [h0]
      simp

lemma stepBlock_failStep (fl hl bl : Nat) (s : AudioSource) (m j : Nat)
    (st : StreamState) (hinv : stateInv fl hl bl s.samples j st)
    (hm : s.failAt = some m)
    (hcur : blockStart hl bl j + fl ≤ s.samples.length)
    (hfail : m < blockStart hl bl j + blockSamples fl hl bl) :
    stepBlock fl hl bl s st = Except.error StreamError.sourceReadError := by
  obtain ⟨hc, t, ht, hb⟩ := hinv
  have hblen : st.buffer.length ≤ blockSamples fl hl bl := by
    rw [hb, List.length_take]
    omega
  have hrd : sourceRead s (st.cursor + st.buffer.length)
      (blockSamples fl hl bl - st.buffer.length) =
      Except.error StreamError.sourceReadError :=
    sourceRead_err s m hm _ _ (by rw [hc]; omega)
  unfold stepBlock
  rw [if_pos (by rw [hc]; exact hcur), hrd]

lemma runStream_fail (fl hl bl : Nat) (hfl : 1 ≤ fl) (hhl : 1 ≤ hl) (hbl : 1 ≤ bl)
    (s : AudioSource) (m j : Nat) (hm : s.failAt = some m)
    (hreq : blockStart hl bl j + fl ≤ s.samples.length)
    (hfail : m < blockStart hl bl j + blockSamples fl hl bl)
    (hprev : ∀ i, i < j → blockStart hl bl i + blockSamples fl hl bl ≤ m) :
    ∀ fuel i st, stateInv fl hl bl s.samples i st → i ≤ j → j - i + 1 ≤ fuel →
      runStream fl hl bl s st fuel =
        ⟨(List.range (j - i)).map (fun x => block fl hl bl s.samples (i + x)),
          some StreamError.sourceReadError, j - i + 1⟩ := by
  intro fuel
  induction fuel with
  | zero =>
    intro i st _ _ hfuel
    omega
  | succ fuel ih =>
    intro i st hinv hij hfuel
    rcases Nat.eq_or_lt_of_le hij with heq | hlt
    · subst heq
      simp only [runStream]
      rw [stepBlock_failStep fl hl bl s m i st hinv hm hreq hfail]
      simp
    · have hstart_le : blockStart hl bl i ≤ blockStart hl bl j := by
        unfold blockStart
        exact Nat.mul_le_mul_right (blockAdvance hl bl) (by omega)
      obtain ⟨hstep, hinv'⟩ := stepBlock_good fl hl bl s i st hinv (by omega)
        (Or.inr ⟨m, hm, hprev i hlt⟩)
      simp only [runStream]
      rw [hstep]
      simp only []
      rw [ih (i + 1) _ hinv' (by omega) (by omega)]
      simp only [StreamResult.mk.injEq]
      refine ⟨?_, by simp, by omega⟩
      have hji : j - i = (j - (i + 1)) + 1 := by omega
      rw [hji, range_map_shift]

lemma numBlocks_le (fl hl bl n : Nat) (hfl : 1 ≤ fl) :
    numBlocks fl hl bl n ≤ n + 1 := by
  unfold numBlocks
  split
  · omega
  · have := Nat.div_le_self (n - fl) (blockAdvance hl bl)
    omega

lemma stateInv_zero (fl hl bl : Nat) (y : List Int) :
    stateInv fl hl bl y 0 ⟨0, []⟩ := by
  refine ⟨by simp [blockStart], 0, by omega, by simp⟩

lemma stream_eq_blocks (c : StreamConfig) (s : AudioSource)
    (hv : ConfigValid c) (hg : s.failAt = none) :
    stream c s =
      ⟨blocks c.frame_length.toNat c.hop_length.toNat c.block_length.toNat s.samples,
        none,
        numBlocks c.frame_length.toNat c.hop_length.toNat c.block_length.toNat
          s.samples.length⟩ := by
  have hfl : 1 ≤ c.frame_length.toNat := by
    obtain ⟨h1, _, _, _⟩ := hv
    omega
  have hhl : 1 ≤ c.hop_length.toNat := by
    obtain ⟨_, h2, _, _⟩ := hv
    omega
  have hbl : 1 ≤ c.block_length.toNat := by
    obtain ⟨_, _, h3, _⟩ := hv
    omega
  unfold stream
  rw [validateConfig_ok c hv]
  rw [runStream_good c.frame_length.toNat c.hop_length.toNat c.block_length.toNat
    hfl hhl hbl s hg (s.samples.length + 1) 0 ⟨0, []⟩
    (stateInv_zero _ _ _ _)
    (by have := numBlocks_le c.frame_length.toNat c.hop_length.toNat
          c.block_length.toNat s.samples.length hfl
        omega)]
  simp only [StreamResult.mk.injEq, Nat.sub_zero]
  refine ⟨?_, by simp, by simp⟩
  unfold blocks
  apply List.map_congr_left
  intro a _
  simp

lemma frame_bound (fl hl n k : Nat) (hhl : 1 ≤ hl) (hk : k < numFrames fl hl n) :
    k * hl + fl ≤ n := by
  unfold numFrames at hk
  split at hk
  · omega
  · rename_i h
    have hk' : k ≤ (n - fl) / hl := by omega
    have := (Nat.le_div_iff_mul_le (by omega : 0 < hl)).mp hk'
    omega

lemma frames_mem_length (fl hl : Nat) (hhl : 1 ≤ hl) (y : List Int) (f : List Int)
    (hf : f ∈ frames fl hl y) : f.length = fl := by
  unfold frames at hf
  rw [List.mem_map] at hf
  obtain ⟨k, hk, rfl⟩ := hf
  rw [List.mem_range] at hk
  have := frame_bound fl hl y.length k hhl hk
  unfold frame
  rw [List.length_take, List.length_drop]
  omega

lemma numFrames_take (fl hl bl n : Nat) (hfl : 1 ≤ fl) (hhl : 1 ≤ hl) (hbl : 1 ≤ bl)
    (hn : fl ≤ n) :
    numFrames fl hl (min (blockSamples fl hl bl) n) =
      min bl (numFrames fl hl n) := by
  have hw : (bl - 1) * hl / hl = bl - 1 := Nat.mul_div_cancel (bl - 1) (by omega)
  rcases Nat.le_total n (blockSamples fl hl bl) with h | h
  · rw [min_eq_right h]
    have hF : numFrames fl hl n = (n - fl) / hl + 1 := by
      unfold numFrames
      rw [if_neg (by omega)]
    have hdivle : (n - fl) / hl ≤ (bl - 1) * hl / hl := by
      apply Nat.div_le_div_right
      have : blockSamples fl hl bl = fl + (bl - 1) * hl := rfl
      omega
    rw [hF]
    rw [min_eq_right (by omega)]
  · rw [min_eq_left h]
    have hbs : numFrames fl hl (blockSamples fl hl bl) = bl := by
      unfold numFrames blockSamples
      rw [if_neg (by omega)]
      have : fl + (bl - 1) * hl - fl = (bl - 1) * hl := by omega
      rw [this, hw]
      omega
    have hF : numFrames fl hl n = (n - fl) / hl + 1 := by
      unfold numFrames
      rw [if_neg (by omega)]
    have hdivge : (bl - 1) * hl / hl ≤ (n - fl) / hl := by
      apply Nat.div_le_div_right
      have : blockSamples fl hl bl = fl + (bl - 1) * hl := rfl
      omega
    rw [hbs, hF]
    rw [min_eq_left (by omega)]

lemma numFrames_drop (fl hl bl n : Nat) (hfl : 1 ≤ fl) (hhl : 1 ≤ hl) (hbl : 1 ≤ bl) :
    numFrames fl hl (n - blockAdvance hl bl) = numFrames fl hl n - bl := by
  have hadv : blockAdvance hl bl = bl * hl := rfl
  rcases Nat.lt_or_ge n (fl + blockAdvance hl bl) with h | h
  · have hL : numFrames fl hl (n - blockAdvance hl bl) = 0 := by
      unfold numFrames
      rw [if_pos (by omega)]
    rw [hL]
    unfold numFrames
    split
    · omega
    · have hlt : (n - fl) / hl < bl := by
        rw [Nat.div_lt_iff_lt_mul (by omega : 0 < hl)]
        omega
      omega
  · have h1 : numFrames fl hl (n - blockAdvance hl bl) =
        ((n - blockAdvance hl bl) - fl) / hl + 1 := by
      unfold numFrames
      rw [if_neg (by omega)]
    have h2 : numFrames fl hl n = (n - fl) / hl + 1 := by
      unfold numFrames
      rw [if_neg (by omega)]
    have hsub : (n - blockAdvance hl bl) - fl = (n - fl) - hl * bl := by
      rw [hadv]
      have : bl * hl = hl * bl := Nat.mul_comm bl hl
      omega
    have hdiv : ((n - fl) - hl * bl) / hl = (n - fl) / hl - bl :=
      Nat.sub_mul_div (n - fl) hl bl (by
        have : bl * hl = hl * bl := Nat.mul_comm bl hl
        omega)
    have hge : bl ≤ (n - fl) / hl := by
      rw [Nat.le_div_iff_mul_le (by omega : 0 < hl)]
      omega
    rw [h1, h2, hsub, hdiv]
    omega

lemma frame_take (fl hl bl : Nat) (hhl : 1 ≤ hl) (hbl : 1 ≤ bl) (y : List Int)
    (k : Nat) (hk : k < bl) :
    frame fl hl (y.take (blockSamples fl hl bl)) k = frame fl hl y k := by
  unfold frame
  rw [List.drop_take, List.take_take]
  congr 1
  have h1 : k * hl ≤ (bl - 1) * hl := Nat.mul_le_mul_right hl (by omega)
  have h2 : blockSamples fl hl bl = fl + (bl - 1) * hl := rfl
  omega

lemma frame_drop (fl hl bl : Nat) (y : List Int) (k : Nat) :
    frame fl hl (y.drop (blockAdvance hl bl)) k = frame fl hl y (bl + k) := by
  unfold frame
  rw [List.drop_drop]
  congr 2
  have h1 : (bl + k) * hl = bl * hl + k * hl := Nat.add_mul bl k hl
  have h2 : blockAdvance hl bl = bl * hl := rfl
  omega

lemma frames_split (fl hl bl : Nat) (hfl : 1 ≤ fl) (hhl : 1 ≤ hl) (hbl : 1 ≤ bl)
    (y : List Int) (hn : fl ≤ y.length) :
    frames fl hl y =
      frames fl hl (y.take (blockSamples fl hl bl)) ++
        frames fl hl (y.drop (blockAdvance hl bl)) := by
  unfold frames
  rw [List.length_take, List.length_drop]
  rw [numFrames_take fl hl bl y.length hfl hhl hbl hn,
    numFrames_drop fl hl bl y.length hfl hhl hbl]
  rcases Nat.le_total (numFrames fl hl y.length) bl with hFbl | hFbl
  · rw [min_eq_right hFbl]
    have h0 : numFrames fl hl y.length - bl = 0 := by omega
    rw [h0]
    simp only [List.range_zero, List.map_nil, List.append_nil]
    apply List.map_congr_left
    intro k hk
    rw [List.mem_range] at hk
    exact (frame_take fl hl bl hhl hbl y k (by omega)).symm
  · rw [min_eq_left hFbl]
    conv_lhs => rw [show numFrames fl hl y.length =
      bl + (numFrames fl hl y.length - bl) by omega]
    rw [List.range_add, List.map_append, List.map_map]
    congr 1
    · apply List.map_congr_left
      intro k hk
      rw [List.mem_range] at hk
      exact (frame_take fl hl bl hhl hbl y k hk).symm
    · apply List.map_congr_left
      intro k _
      show frame fl hl y (bl + k) = frame fl hl (y.drop (blockAdvance hl bl)) k
      exact (frame_drop fl hl bl y k).symm

lemma blocks_cons (fl hl bl : Nat) (hfl : 1 ≤ fl) (hhl : 1 ≤ hl) (hbl : 1 ≤ bl)
    (y : List Int) (hn : fl ≤ y.length) :
    blocks fl hl bl y =
      y.take (blockSamples fl hl bl) :: blocks fl hl bl (y.drop (blockAdvance hl bl)) := by
  have hadv := blockAdvance_pos hl bl hhl hbl
  unfold blocks
  rw [List.length_drop]
  have hnb : numBlocks fl hl bl y.length =
      numBlocks fl hl bl (y.length - blockAdvance hl bl) + 1 := by
    unfold numBlocks
    rcases Nat.lt_or_ge y.length (fl + blockAdvance hl bl) with h | h
    · rw [if_neg (by omega), if_pos (by omega)]
      rw [Nat.div_eq_of_lt (by omega)]
    · rw [if_neg (by omega), if_neg (by omega)]
      rw [Nat.div_eq_sub_div (by omega) (by omega : blockAdvance hl bl ≤ y.length - fl)]
      have : y.length - fl - blockAdvance hl bl =
          y.length - blockAdvance hl bl - fl := by omega
      rw [this]
  rw [hnb, List.range_succ_eq_map, List.map_cons, List.map_map]
  refine congrArg₂ List.cons ?_ ?_
  · unfold block
    simp [blockStart]
  · apply List.map_congr_left
    intro a _
    show block fl hl bl y (a + 1) = block fl hl bl (y.drop (blockAdvance hl bl)) a
    unfold block blockStart
    rw [List.drop_drop, Nat.succ_mul, Nat.add_comm (a * blockAdvance hl bl)]

lemma blocks_frames_join (fl hl bl : Nat) (hfl : 1 ≤ fl) (hhl : 1 ≤ hl) (hbl : 1 ≤ bl)
    (y : List Int) :
    ((blocks fl hl bl y).map (frames fl hl)).flatten = frames fl hl y := by
  have hadv := blockAdvance_pos hl bl hhl hbl
  have key : ∀ n (z : List Int), z.length ≤ n →
      ((blocks fl hl bl z).map (frames fl hl)).flatten = frames fl hl z := by
    intro n
    induction n with
    | zero =>
      intro z hz
      have h0 : z.length < fl := by omega
      have hb : numBlocks fl hl bl z.length = 0 := by
        unfold numBlocks
        rw [if_pos h0]
      have hf : numFrames fl hl z.length = 0 := by
        unfold numFrames
        rw [if_pos h0]
      unfold blocks frames
      rw [hb, hf]
      simp
    | succ n ih =>
      intro z hz
      by_cases hge : fl ≤ z.length
      · rw [blocks_cons fl hl bl hfl hhl hbl z hge, List.map_cons, List.flatten_cons]
        rw [ih (z.drop (blockAdvance hl bl)) (by rw [List.length_drop]; omega)]
        exact (frames_split fl hl bl hfl hhl hbl z hge).symm
      · have h0 : z.length < fl := by omega
        have hb : numBlocks fl hl bl z.length = 0 := by
          unfold numBlocks
          rw [if_pos h0]
        have hf : numFrames fl hl z.length = 0 := by
          unfold numFrames
          rw [if_pos h0]
        unfold blocks frames
        rw [hb, hf]
        simp
  exact key y.length y (Nat.le_refl _)

lemma sourceRead_ok_length (s : AudioSource) (pos cnt : Nat) (fresh : List Int)
    (h : sourceRead s pos cnt = Except.ok fresh) : fresh.length ≤ cnt := by
  rcases hfa : s.failAt with _ | m
  · rw [sourceRead_ok_of_none s hfa pos cnt] at h
    simp only [Except.ok.injEq] at h
    rw [← h, List.length_take]
    omega
  · by_cases hm : m < pos + cnt
    · rw [sourceRead_err s m hfa pos cnt hm] at h
      exact Except.noConfusion h
    · rw [sourceRead_ok_of_le s m hfa pos cnt (by omega)] at h
      simp only [Except.ok.injEq] at h
      rw [← h, List.length_take]
      omega

lemma stepBlock_len (fl hl bl : Nat) (s : AudioSource) (st : StreamState)
    (hb : st.buffer.length ≤ blockSamples fl hl bl) (blk : List Int) (st' : StreamState)
    (h : stepBlock fl hl bl s st = Except.ok (some (blk, st'))) :
    blk.length ≤ blockSamples fl hl bl ∧
      st'.buffer.length ≤ blockSamples fl hl bl := by
  unfold stepBlock at h
  split at h
  · rcases hrd : sourceRead s (st.cursor + st.buffer.length)
        (blockSamples fl hl bl - st.buffer.length) with e | fresh
    · rw [hrd] at h
      exact absurd h (by simp)
    · rw [hrd] at h
      simp only [Except.ok.injEq, Option.some.injEq, Prod.mk.injEq] at h
      obtain ⟨hblk, hst'⟩ := h
      have hfl : fresh.length ≤ blockSamples fl hl bl - st.buffer.length :=
        sourceRead_ok_length s _ _ fresh hrd
      have hlen : blk.length ≤ blockSamples fl hl bl := by
        rw [← hblk, List.length_append]
        omega
      refine ⟨hlen, ?_⟩
      rw [← hst']
      simp only [List.length_drop, List.length_append]
      omega
  · exact absurd h (by simp)

/-- States actually visited by the streaming loop: the initial state, and
every state produced by a successful block step from a reachable state. -/
inductive Reachable (fl hl bl : Nat) (s : AudioSource) : StreamState → Prop where
  | init : Reachable fl hl bl s ⟨0, []⟩
  | next {st : StreamState} {blk : List Int} {st' : StreamState} :
      Reachable fl hl bl s st →
      stepBlock fl hl bl s st = Except.ok (some (blk, st')) →
      Reachable fl hl bl s st'

lemma reachable_buffer_le (fl hl bl : Nat) (s : AudioSource) (st : StreamState)
    (h : Reachable fl hl bl s st) :
    st.buffer.length ≤ blockSamples fl hl bl := by
  induction h with
  | init => simp
  | next _ hstep ih =>
    exact (stepBlock_len fl hl bl s _ ih _ _ hstep).2

/-- C1: for every finite signal and every valid parameter triple,
concatenating the frames extracted (with no centering) from the consecutive
blocks produced by the BlockStreamer yields exactly the same frame sequence
as extracting frames directly from the whole signal with the same
frame_length and hop_length and no centering. -/
theorem claim_C1 (c : StreamConfig) (s : AudioSource)
    (hv : ConfigValid c) (hg : s.failAt = none) :
    (((stream c s).emitted).map
        (frames c.frame_length.toNat c.hop_length.toNat)).flatten =
      frames c.frame_length.toNat c.hop_length.toNat s.samples := by
  rw [stream_eq_blocks c s hv hg]
  exact blocks_frames_join _ _ _
    (by obtain ⟨h, _, _, _⟩ := hv; omega)
    (by obtain ⟨_, h, _, _⟩ := hv; omega)
    (by obtain ⟨_, _, h, _⟩ := hv; omega) s.samples

/-- Witness for C1: frame_length 2, hop_length 1, block_length 2 on a
five-sample signal. -/
theorem claim_C1_witness :
    (((stream ⟨2, 1, 2, false⟩ ⟨[0, 1, 2, 3, 4], none⟩).emitted).map
        (frames 2 1)).flatten = frames 2 1 [0, 1, 2, 3, 4] :=
  claim_C1 ⟨2, 1, 2, false⟩ ⟨[0, 1, 2, 3, 4], none⟩ (by decide) rfl

/-- C2: for every j, block j produced by the BlockStreamer starts at sample
index j * block_length * hop_length and spans
frame_length + (block_length - 1) * hop_length consecutive samples of the
source. -/
theorem claim_C2 (c : StreamConfig) (s : AudioSource) (j : Nat)
    (hv : ConfigValid c) (hg : s.failAt = none)
    (hj : j < (stream c s).emitted.length) :
    (stream c s).emitted[j]? =
      some ((s.samples.drop (j * (c.block_length.toNat * c.hop_length.toNat))).take
        (c.frame_length.toNat + (c.block_length.toNat - 1) * c.hop_length.toNat)) := by
  rw [stream_eq_blocks c s hv hg] at hj ⊢
  dsimp only at hj ⊢
  unfold blocks at hj ⊢
  rw [List.length_map, List.length_range] at hj
  rw [List.getElem?_map, List.getElem?_range hj]
  rfl

set_option maxRecDepth 10000 in
/-- Witness for C2: the notebook's worked example - frame_length 100,
hop_length 25, block_length 3; the second block covers samples [75, 225),
that is, it starts at sample 1 * (3 * 25) = 75 and spans
100 + 2 * 25 = 150 samples. -/
theorem claim_C2_witness :
    (stream ⟨100, 25, 3, false⟩
        ⟨(List.range 225).map Int.ofNat, none⟩).emitted[1]? =
      some (((((List.range 225).map Int.ofNat)).drop (1 * (3 * 25))).take
        (100 + (3 - 1) * 25)) :=
  claim_C2 ⟨100, 25, 3, false⟩ ⟨(List.range 225).map Int.ofNat, none⟩ 1
    (by decide) rfl (by decide)

/-- C4: streaming terminates exactly when fewer than frame_length new
samples remain: the run ends without error, it emits exactly the closed-form
number of blocks, a source shorter than frame_length yields an empty block
sequence, every frame extracted from an emitted block is a full frame of
frame_length samples (no partial final frame), and every emitted block is a
contiguous span of the source samples (the trailing remainder is discarded,
never padded). -/
theorem claim_C4 (c : StreamConfig) (s : AudioSource)
    (hv : ConfigValid c) (hg : s.failAt = none) :
    (stream c s).error = none ∧
    (stream c s).emitted.length =
      numBlocks c.frame_length.toNat c.hop_length.toNat c.block_length.toNat
        s.samples.length ∧
    (s.samples.length < c.frame_length.toNat → (stream c s).emitted = []) ∧
    (∀ b ∈ (stream c s).emitted,
      ∀ f ∈ frames c.frame_length.toNat c.hop_length.toNat b,
        f.length = c.frame_length.toNat) ∧
    (∀ b ∈ (stream c s).emitted, ∃ a,
      b = (s.samples.drop a).take
        (blockSamples c.frame_length.toNat c.hop_length.toNat
          c.block_length.toNat)) := by
  rw [stream_eq_blocks c s hv hg]
  dsimp only
  obtain ⟨h1, h2, h3, _⟩ := hv
  refine ⟨rfl, ?_, ?_, ?_, ?_⟩
  · unfold blocks
    rw [List.length_map, List.length_range]
  · intro hshort
    unfold blocks numBlocks
    rw [if_pos hshort]
    simp
  · intro b _ f hf
    exact frames_mem_length _ _ (by omega) b f hf
  · intro b hb
    unfold blocks at hb
    rw [List.mem_map] at hb
    obtain ⟨j, _, rfl⟩ := hb
    exact ⟨blockStart c.hop_length.toNat c.block_length.toNat j, rfl⟩

/-- Witness for C4 at frame_length 2, hop_length 1, block_length 2 on a
five-sample source. -/
theorem claim_C4_witness :
    (stream ⟨2, 1, 2, false⟩ ⟨[0, 1, 2, 3, 4], none⟩).error = none ∧
    (stream ⟨2, 1, 2, false⟩ ⟨[0, 1, 2, 3, 4], none⟩).emitted.length =
      numBlocks 2 1 2 ([0, 1, 2, 3, 4] : List Int).length ∧
    (([0, 1, 2, 3, 4] : List Int).length < 2 →
      (stream ⟨2, 1, 2, false⟩ ⟨[0, 1, 2, 3, 4], none⟩).emitted = []) ∧
    (∀ b ∈ (stream ⟨2, 1, 2, false⟩ ⟨[0, 1, 2, 3, 4], none⟩).emitted,
      ∀ f ∈ frames 2 1 b, f.length = 2) ∧
    (∀ b ∈ (stream ⟨2, 1, 2, false⟩ ⟨[0, 1, 2, 3, 4], none⟩).emitted, ∃ a,
      b = (([0, 1, 2, 3, 4] : List Int).drop a).take (blockSamples 2 1 2)) :=
  claim_C4 ⟨2, 1, 2, false⟩ ⟨[0, 1, 2, 3, 4], none⟩ (by decide) rfl

/-- C5: for every configuration with frame_length <= 0, or hop_length <= 0,
or block_length < 1, or hop_length > frame_length combined with a centering
request, the BlockStreamer fails with ConfigurationError, the failure is
detected eagerly before any read is performed on the backing source (zero
reads), and no block is emitted. -/
theorem claim_C5 (c : StreamConfig) (s : AudioSource)
    (hv : c.frame_length ≤ 0 ∨ c.hop_length ≤ 0 ∨ c.block_length < 1 ∨
      (c.center = true ∧ c.frame_length < c.hop_length)) :
    stream c s = ⟨[], some StreamError.configurationError, 0⟩ := by
  unfold stream validateConfig
  rw [if_pos hv]

/-- Witness for C5: hop_length 0 raises ConfigurationError with zero reads
performed. -/
theorem claim_C5_witness :
    stream ⟨2, 0, 2, false⟩ ⟨[0, 1, 2], none⟩ =
      ⟨[], some StreamError.configurationError, 0⟩ :=
  claim_C5 ⟨2, 0, 2, false⟩ ⟨[0, 1, 2], none⟩ (by decide)

lemma blockAdvance_split (hl bl : Nat) (hhl : 1 ≤ hl) (hbl : 1 ≤ bl) :
    blockAdvance hl bl = (bl - 1) * hl + hl := by
  have h1 : (bl - 1) * hl = bl * hl - hl := Nat.sub_one_mul bl hl
  have h2 : hl ≤ bl * hl := Nat.le_mul_of_pos_left hl (by omega)
  unfold blockAdvance
  omega

/-- C3: the sample spans of adjacent blocks j and j+1 overlap by exactly
frame_length - hop_length samples when that quantity is positive, and are
disjoint when hop_length >= frame_length; moreover the reusable tail of each
block is its last block_samples - block_advance samples, which is exactly
the leading overlap of the next block. -/
theorem claim_C3 (fl hl bl j : Nat) (y : List Int)
    (hfl : 1 ≤ fl) (hhl : 1 ≤ hl) (hbl : 1 ≤ bl) :
    ((Finset.Ico (blockStart hl bl j)
        (blockStart hl bl j + blockSamples fl hl bl)) ∩
      (Finset.Ico (blockStart hl bl (j + 1))
        (blockStart hl bl (j + 1) + blockSamples fl hl bl))).card = fl - hl ∧
    (hl ≥ fl →
      Disjoint
        (Finset.Ico (blockStart hl bl j)
          (blockStart hl bl j + blockSamples fl hl bl))
        (Finset.Ico (blockStart hl bl (j + 1))
          (blockStart hl bl (j + 1) + blockSamples fl hl bl))) ∧
    (block fl hl bl y j).drop (blockAdvance hl bl) =
      (block fl hl bl y (j + 1)).take (blockSamples fl hl bl - blockAdvance hl bl) := by
  have hW := blockAdvance_split hl bl hhl hbl
  have hbs : blockSamples fl hl bl = fl + (bl - 1) * hl := rfl
  refine ⟨?_, ?_, ?_⟩
  · rw [blockStart_succ, Finset.Ico_inter_Ico, Nat.card_Ico]
    omega
  · intro hle
    rw [blockStart_succ]
    rw [Finset.disjoint_left]
    intro x hx hx'
    rw [Finset.mem_Ico] at hx hx'
    omega
  · unfold block
    rw [window_drop, blockStart_succ, List.take_take,
      min_eq_left (by omega : blockSamples fl hl bl - blockAdvance hl bl ≤
        blockSamples fl hl bl)]

/-- Witness for C3 at frame_length 2, hop_length 1, block_length 2, j = 0 on
a five-sample signal: the spans [0,3) and [2,5) share exactly 2 - 1 = 1
sample, and the reusable tail of block 0 is the first sample of block 1. -/
theorem claim_C3_witness :
    ((Finset.Ico (blockStart 1 2 0) (blockStart 1 2 0 + blockSamples 2 1 2)) ∩
      (Finset.Ico (blockStart 1 2 (0 + 1))
        (blockStart 1 2 (0 + 1) + blockSamples 2 1 2))).card = 2 - 1 ∧
    (1 ≥ 2 →
      Disjoint
        (Finset.Ico (blockStart 1 2 0) (blockStart 1 2 0 + blockSamples 2 1 2))
        (Finset.Ico (blockStart 1 2 (0 + 1))
          (blockStart 1 2 (0 + 1) + blockSamples 2 1 2))) ∧
    (block 2 1 2 [0, 1, 2, 3, 4] 0).drop (blockAdvance 1 2) =
      (block 2 1 2 [0, 1, 2, 3, 4] (0 + 1)).take (blockSamples 2 1 2 - blockAdvance 1 2) :=
  claim_C3 2 1 2 0 [0, 1, 2, 3, 4] (by decide) (by decide) (by decide)

/-- C6: every frame belongs to exactly one block: for every existing frame
index k (spanning samples [k*hl, k*hl + fl)), a block j exists and its
sample span contains frame k's span if and only if j = k / block_length, so
that block index is unique. -/
theorem claim_C6 (fl hl bl n k : Nat) (hfl : 1 ≤ fl) (hhl : 1 ≤ hl) (hbl : 1 ≤ bl)
    (hk : k < numFrames fl hl n) (j : Nat) :
    (j < numBlocks fl hl bl n ∧ blockStart hl bl j ≤ k * hl ∧
      k * hl + fl ≤ blockStart hl bl j + blockSamples fl hl bl) ↔ j = k / bl := by
  have hkfl : k * hl + fl ≤ n := frame_bound fl hl n k hhl hk
  have hdm := Nat.div_add_mod k bl
  have hmod : k % bl < bl := Nat.mod_lt k (by omega)
  have hbs : blockSamples fl hl bl = fl + (bl - 1) * hl := rfl
  have hcomm : bl * (k / bl) = k / bl * bl := Nat.mul_comm bl (k / bl)
  constructor
  · rintro ⟨hjn, h1, h2⟩
    unfold blockStart blockAdvance at h1 h2
    have hA : j * (bl * hl) = j * bl * hl := (mul_assoc j bl hl).symm
    have h1' : j * bl ≤ k := by
      refine Nat.le_of_mul_le_mul_right ?_ (by omega : 0 < hl)
      omega
    have h2' : k ≤ j * bl + (bl - 1) := by
      refine Nat.le_of_mul_le_mul_right ?_ (by omega : 0 < hl)
      have hd : (j * bl + (bl - 1)) * hl = j * bl * hl + (bl - 1) * hl :=
        Nat.add_mul _ _ _
      omega
    have hle : j ≤ k / bl := (Nat.le_div_iff_mul_le (by omega : 0 < bl)).mpr h1'
    have hge : k / bl ≤ j := by
      have hlt : k / bl < j + 1 := by
        rw [Nat.div_lt_iff_lt_mul (by omega : 0 < bl)]
        have hs : (j + 1) * bl = j * bl + bl := Nat.succ_mul j bl
        omega
      omega
    omega
  · rintro rfl
    have hdml : k / bl * bl ≤ k := Nat.div_mul_le_self k bl
    have hlo : k / bl * bl * hl ≤ k * hl := Nat.mul_le_mul_right hl hdml
    have hA : k / bl * (bl * hl) = k / bl * bl * hl := (mul_assoc _ bl hl).symm
    refine ⟨?_, ?_, ?_⟩
    · rw [blockExists_iff fl hl bl n hfl hhl hbl]
      unfold blockStart blockAdvance
      omega
    · unfold blockStart blockAdvance
      omega
    · unfold blockStart blockAdvance
      have h6 : k ≤ k / bl * bl + (bl - 1) := by omega
      have h7 : k * hl ≤ (k / bl * bl + (bl - 1)) * hl := Nat.mul_le_mul_right hl h6
      have hd : (k / bl * bl + (bl - 1)) * hl = k / bl * bl * hl + (bl - 1) * hl :=
        Nat.add_mul _ _ _
      omega

/-- Witness for C6: frame 3 (of the four frames of a five-sample signal at
frame_length 2, hop_length 1) belongs to block j exactly when j = 3 / 2 = 1. -/
theorem claim_C6_witness :
    (1 < numBlocks 2 1 2 5 ∧ blockStart 1 2 1 ≤ 3 * 1 ∧
      3 * 1 + 2 ≤ blockStart 1 2 1 + blockSamples 2 1 2) ↔ 1 = 3 / 2 :=
  claim_C6 2 1 2 5 3 (by decide) (by decide) (by decide) (by decide) 1

lemma blocks_getElem? (fl hl bl : Nat) (y : List Int) (j : Nat) (b : List Int)
    (h : (blocks fl hl bl y)[j]? = some b) :
    j < numBlocks fl hl bl y.length ∧ b = block fl hl bl y j := by
  unfold blocks at h
  rcases h' : (List.range (numBlocks fl hl bl y.length))[j]? with _ | v
  · rw [List.getElem?_map, h'] at h
    simp at h
  · rw [List.getElem?_map, h'] at h
    rw [List.getElem?_eq_some] at h'
    obtain ⟨hlt, hv⟩ := h'
    rw [List.getElem_range] at hv
    rw [List.length_range] at hlt
    simp only [Option.map_some'] at h
    subst hv
    exact ⟨hlt, by simpa using h.symm⟩

/-- C7 counterexample: the claim that every emitted block has exactly
block_samples samples fails on the final block.  With frame_length 2,
hop_length 1, block_length 2 (block_samples = 3) on the four-sample source
[0, 1, 2, 3], the streamer emits [[0, 1, 2], [2, 3]]: the final block holds
only 2 samples. -/
theorem claim_C7_counterexample :
    ¬ (∀ b ∈ (stream ⟨2, 1, 2, false⟩ ⟨[0, 1, 2, 3], none⟩).emitted,
        b.length = blockSamples 2 1 2) := by
  decide

/-- C7 amended: every emitted block except possibly the last has exactly
block_samples = frame_length + (block_length - 1) * hop_length samples;
every emitted block (the final one included) has at least frame_length and
at most block_samples samples, its length being block_samples truncated to
the remaining signal. -/
theorem claim_C7_amended (c : StreamConfig) (s : AudioSource)
    (hv : ConfigValid c) (hg : s.failAt = none) (j : Nat) (b : List Int)
    (hjb : (stream c s).emitted[j]? = some b) :
    c.frame_length.toNat ≤ b.length ∧
    b.length = min
      (blockSamples c.frame_length.toNat c.hop_length.toNat c.block_length.toNat)
      (s.samples.length - j * (c.block_length.toNat * c.hop_length.toNat)) ∧
    (j + 1 < (stream c s).emitted.length →
      b.length = blockSamples c.frame_length.toNat c.hop_length.toNat
        c.block_length.toNat) := by
  have hfl : 1 ≤ c.frame_length.toNat := by
    obtain ⟨h, _, _, _⟩ := hv
    omega
  have hhl : 1 ≤ c.hop_length.toNat := by
    obtain ⟨_, h, _, _⟩ := hv
    omega
  have hbl : 1 ≤ c.block_length.toNat := by
    obtain ⟨_, _, h, _⟩ := hv
    omega
  rw [stream_eq_blocks c s hv hg] at hjb ⊢
  dsimp only at hjb ⊢
  obtain ⟨hj, rfl⟩ := blocks_getElem? _ _ _ _ _ _ hjb
  have hreq := (blockExists_iff _ _ _ s.samples.length hfl hhl hbl j).mp hj
  have hstart : blockStart c.hop_length.toNat c.block_length.toNat j =
      j * (c.block_length.toNat * c.hop_length.toNat) := rfl
  have hW := blockAdvance_split c.hop_length.toNat c.block_length.toNat hhl hbl
  have hbs : blockSamples c.frame_length.toNat c.hop_length.toNat c.block_length.toNat =
      c.frame_length.toNat + (c.block_length.toNat - 1) * c.hop_length.toNat := rfl
  have hlen : (block c.frame_length.toNat c.hop_length.toNat c.block_length.toNat
      s.samples j).length = min
      (blockSamples c.frame_length.toNat c.hop_length.toNat c.block_length.toNat)
      (s.samples.length - blockStart c.hop_length.toNat c.block_length.toNat j) := by
    unfold block
    rw [List.length_take, List.length_drop]
  refine ⟨?_, ?_, ?_⟩
  · rw [hlen]
    omega
  · rw [hlen, hstart]
  · intro hj1
    unfold blocks at hj1
    rw [List.length_map, List.length_range] at hj1
    have hreq1 := (blockExists_iff _ _ _ s.samples.length hfl hhl hbl (j + 1)).mp hj1
    rw [blockStart_succ] at hreq1
    rw [hlen]
    unfold blockAdvance at hreq1 hW
    omega

/-- Witness for C7 amended: the first block of the five-sample example has
exactly block_samples = 3 samples. -/
theorem claim_C7_amended_witness :
    2 ≤ ([0, 1, 2] : List Int).length ∧
    ([0, 1, 2] : List Int).length = min (blockSamples 2 1 2)
      (([0, 1, 2, 3, 4] : List Int).length - 0 * (2 * 1)) ∧
    (0 + 1 < (stream ⟨2, 1, 2, false⟩ ⟨[0, 1, 2, 3, 4], none⟩).emitted.length →
      ([0, 1, 2] : List Int).length = blockSamples 2 1 2) :=
  claim_C7_amended ⟨2, 1, 2, false⟩ ⟨[0, 1, 2, 3, 4], none⟩ (by decide) rfl 0
    [0, 1, 2] (by decide)

/-- C8: when the backing source reports a read failure at the read for block
j (blocks before j read cleanly), the BlockStreamer surfaces
SourceReadError at that block request: exactly the first j blocks are
emitted, the error is raised immediately at read j + 1 (not deferred, not
retried), and the sequence terminates there. -/
theorem claim_C8 (c : StreamConfig) (s : AudioSource) (m j : Nat)
    (hv : ConfigValid c) (hm : s.failAt = some m)
    (hreq : blockStart c.hop_length.toNat c.block_length.toNat j +
      c.frame_length.toNat ≤ s.samples.length)
    (hfail : m < blockStart c.hop_length.toNat c.block_length.toNat j +
      blockSamples c.frame_length.toNat c.hop_length.toNat c.block_length.toNat)
    (hprev : ∀ i, i < j → blockStart c.hop_length.toNat c.block_length.toNat i +
      blockSamples c.frame_length.toNat c.hop_length.toNat c.block_length.toNat ≤ m) :
    stream c s = ⟨(List.range j).map
        (block c.frame_length.toNat c.hop_length.toNat c.block_length.toNat s.samples),
      some StreamError.sourceReadError, j + 1⟩ := by
  have hfl : 1 ≤ c.frame_length.toNat := by
    obtain ⟨h, _, _, _⟩ := hv
    omega
  have hhl : 1 ≤ c.hop_length.toNat := by
    obtain ⟨_, h, _, _⟩ := hv
    omega
  have hbl : 1 ≤ c.block_length.toNat := by
    obtain ⟨_, _, h, _⟩ := hv
    omega
  have hadv := blockAdvance_pos c.hop_length.toNat c.block_length.toNat hhl hbl
  have hjle : j ≤ s.samples.length := by
    have h1 : j ≤ j * blockAdvance c.hop_length.toNat c.block_length.toNat :=
      Nat.le_mul_of_pos_right j (by omega)
    have h2 : blockStart c.hop_length.toNat c.block_length.toNat j =
        j * blockAdvance c.hop_length.toNat c.block_length.toNat := rfl
    omega
  unfold stream
  rw [validateConfig_ok c hv]
  rw [runStream_fail c.frame_length.toNat c.hop_length.toNat c.block_length.toNat
    hfl hhl hbl s m j hm hreq hfail hprev (s.samples.length + 1) 0 ⟨0, []⟩
    (stateInv_zero _ _ _ _) (by omega) (by omega)]
  simp only [StreamResult.mk.injEq, Nat.sub_zero]
  refine ⟨?_, by simp, by simp⟩
  apply List.map_congr_left
  intro a _
  simp

/-- Witness for C8: source [0,1,2,3,4,5] failing at sample index 4 with
frame_length 2, hop_length 1, block_length 2: block 0 is emitted, the read
for block 1 (spanning [2,5)) touches index 4 and raises SourceReadError as
the second read. -/
theorem claim_C8_witness :
    stream ⟨2, 1, 2, false⟩ ⟨[0, 1, 2, 3, 4, 5], some 4⟩ =
      ⟨(List.range 1).map (block 2 1 2 [0, 1, 2, 3, 4, 5]),
        some StreamError.sourceReadError, 1 + 1⟩ :=
  claim_C8 ⟨2, 1, 2, false⟩ ⟨[0, 1, 2, 3, 4, 5], some 4⟩ 4 1 (by decide) rfl
    (by decide) (by decide)
    (fun i hi => by
      have hi0 : i = 0 := by omega
      subst hi0
      decide)

/-- C9: at every reachable point of the iteration the streamer's state
buffers at most block_samples samples, the next read requests at most
block_samples new samples, and any block it emits holds at most
block_samples samples - a bound independent of the total signal length. -/
theorem claim_C9 (fl hl bl : Nat) (s : AudioSource) (st : StreamState)
    (hr : Reachable fl hl bl s st) :
    st.buffer.length ≤ blockSamples fl hl bl ∧
    blockSamples fl hl bl - st.buffer.length ≤ blockSamples fl hl bl ∧
    (∀ blk st', stepBlock fl hl bl s st = Except.ok (some (blk, st')) →
      blk.length ≤ blockSamples fl hl bl) := by
  have hb := reachable_buffer_le fl hl bl s st hr
  exact ⟨hb, by omega, fun blk st' h => (stepBlock_len fl hl bl s st hb blk st' h).1⟩

/-- Witness for C9 at the initial state of a concrete stream. -/
theorem claim_C9_witness :
    (⟨0, []⟩ : StreamState).buffer.length ≤ blockSamples 2 1 2 ∧
    blockSamples 2 1 2 - (⟨0, []⟩ : StreamState).buffer.length ≤ blockSamples 2 1 2 ∧
    (∀ blk st', stepBlock 2 1 2 ⟨[0, 1, 2, 3, 4], none⟩ ⟨0, []⟩ =
        Except.ok (some (blk, st')) →
      blk.length ≤ blockSamples 2 1 2) :=
  claim_C9 2 1 2 ⟨[0, 1, 2, 3, 4], none⟩ ⟨0, []⟩ Reachable.init

/-- C10: the BlockStreamer is deterministic - its entire observable result
is the pure closed-form function of the input samples and the parameter
triple (no hidden state), so any two runs over sources holding the same
samples with the same parameter triple produce identical block sequences. -/
theorem claim_C10 (c c' : StreamConfig) (s s' : AudioSource)
    (hv : ConfigValid c) (hv' : ConfigValid c')
    (hg : s.failAt = none) (hg' : s'.failAt = none)
    (hfl : c'.frame_length = c.frame_length) (hhl : c'.hop_length = c.hop_length)
    (hbl : c'.block_length = c.block_length) (hs : s'.samples = s.samples) :
    stream c s =
      ⟨blocks c.frame_length.toNat c.hop_length.toNat c.block_length.toNat
          s.samples, none,
        numBlocks c.frame_length.toNat c.hop_length.toNat c.block_length.toNat
          s.samples.length⟩ ∧
    stream c' s' = stream c s := by
  have h1 := stream_eq_blocks c s hv hg
  have h2 := stream_eq_blocks c' s' hv' hg'
  rw [hfl, hhl, hbl, hs] at h2
  exact ⟨h1, by rw [h1, h2]⟩

/-- Witness for C10: two configurations differing only in the centering
flag, over two sources holding the same samples, produce identical results
equal to the closed-form block sequence. -/
theorem claim_C10_witness :
    stream ⟨2, 1, 2, false⟩ ⟨[0, 1, 2, 3, 4], none⟩ =
      ⟨blocks 2 1 2 [0, 1, 2, 3, 4], none,
        numBlocks 2 1 2 ([0, 1, 2, 3, 4] : List Int).length⟩ ∧
    stream ⟨2, 1, 2, true⟩ ⟨[0, 1, 2, 3, 4], none⟩ =
      stream ⟨2, 1, 2, false⟩ ⟨[0, 1, 2, 3, 4], none⟩ :=
  claim_C10 ⟨2, 1, 2, false⟩ ⟨2, 1, 2, true⟩ ⟨[0, 1, 2, 3, 4], none⟩
    ⟨[0, 1, 2, 3, 4], none⟩ (by decide) (by decide) rfl rfl rfl rfl rfl rfl

end Streaming
